import Mathlib

/-!
Verification of a secp256k1 elliptic-curve arithmetic library.

The development shallowly embeds the library's core: the curve constants,
the `Point` record with its validating constructor, the modular inverse via
the extended Euclidean algorithm, affine point addition, and double-and-add
scalar multiplication.  Python's `//` and `%` on integers are floor division
and floor modulus, so they are rendered as `Int.fdiv` and `Int.fmod`; Python
exceptions are rendered with `Except`.

On top of the embedding we prove the specified properties: closure of the
group operation, commutativity, associativity, inverses, correctness of the
modular inverse, and equivalence of double-and-add with repeated addition.
The group-law properties are obtained by refining the concrete code to
Mathlib's nonsingular-point group on the Weierstrass curve `y² = x³ + 7`
over `ZMod P`, which requires a primality certificate for the field prime.
-/

namespace Secp256k1

/-- The secp256k1 prime field modulus `P`. -/
def P : Nat := 0xFFFFFFFFFFFFFFFFFFFFFFFFFFFFFFFFFFFFFFFFFFFFFFFFFFFFFFFEFFFFFC2F

/-- Coefficient `a` in `y² = x³ + ax + b`. -/
def A : Int := 0

/-- Coefficient `b` in `y² = x³ + ax + b`. -/
def B : Int := 7

/-- Order of the curve group. -/
def N : Nat := 0xFFFFFFFFFFFFFFFFFFFFFFFFFFFFFFFEBAAEDCE6AF48A03BBFD25E8CD0364141

/-- Generator point x-coordinate. -/
def GX : Int := 0x79BE667EF9DCBBAC55A06295CE870B07029BFCDB2DCE28D959F2815B16F81798

/-- Generator point y-coordinate. -/
def GY : Int := 0x483ADA7726A3C4655DA4FBFC0E1108A8FD17B448A68554199C47D08FFB10D4B8

/-- Binary modular exponentiation with explicit structural fuel, used to
evaluate the modular powers appearing in primality certificates inside the
kernel. -/
def powMod : Nat → Nat → Nat → Nat → Nat
  | 0, _, _, m => 1 % m
  | fuel + 1, a, e, m =>
    if e = 0 then 1 % m
    else
      let r := powMod fuel ((a * a) % m) (e / 2) m
      if e % 2 = 1 then (r * a) % m else r

/-- A point of the library: a pair of optional integer coordinates, exactly as
in the source dataclass.  The point at infinity is represented by both
coordinates absent. -/
structure Point where
  x : Option Int := none
  y : Option Int := none
deriving DecidableEq

/-- Errors raised during `Point` construction: the `ValueError` carrying the
offending coordinates raised when the curve equation fails, and the
`AssertionError` raised by `is_on_curve` when exactly one coordinate is
supplied. -/
inductive PointError where
  | notOnCurve (x y : Option Int)
  | assertionFailed
deriving DecidableEq

instance {ε α : Type} [DecidableEq ε] [DecidableEq α] : DecidableEq (Except ε α)
  | .error e, .error f =>
    if h : e = f then .isTrue (by rw [h]) else .isFalse (fun hc => h (by injection hc))
  | .error _, .ok _ => .isFalse (fun hc => Except.noConfusion hc)
  | .ok _, .error _ => .isFalse (fun hc => Except.noConfusion hc)
  | .ok a, .ok b =>
    if h : a = b then .isTrue (by rw [h]) else .isFalse (fun hc => h (by injection hc))

/-- Check if this is the point at infinity (identity element). -/
def Point.is_infinity (p : Point) : Bool :=
  p.x == none && p.y == none

/-- Check if the point is on the secp256k1 curve: `y² = x³ + 7 (mod p)`.
The source asserts that both coordinates are present when the point is not
infinity; a failed assertion is modelled by `none`. -/
def Point.is_on_curve (p : Point) : Option Bool :=
  if p.is_infinity then some true
  else
    match p.x, p.y with
    | some x, some y =>
      some (((y * y).fmod (P : Int)) == ((x * x * x + B).fmod (P : Int)))
    | _, _ => none

/-- The `Point` constructor together with `__post_init__`: validate the point
after initialization, failing when a non-infinity point is not on the
curve. -/
def mkPoint (x y : Option Int) : Except PointError Point :=
  let p : Point := ⟨x, y⟩
  if p.is_infinity then .ok p
  else
    match p.is_on_curve with
    | none => .error .assertionFailed
    | some true => .ok p
    | some false => .error (.notOnCurve x y)

/-- The `while r != 0` loop of the extended Euclidean algorithm in
`mod_inverse`, tracking `old_r, r, old_s, s` and returning `old_s`.  Python's
`//` is floor division, `Int.fdiv`. -/
def egcdLoop (old_r r old_s s : Int) : Int :=
  if hr : r = 0 then old_s
  else
    let quotient := old_r.fdiv r
    egcdLoop r (old_r - quotient * r) s (old_s - quotient * s)
termination_by r.natAbs
decreasing_by
  have hb' : 0 < r.natAbs := Int.natAbs_pos.mpr hr
  have key : (old_r - old_r.fdiv r * r) = old_r.fmod r := by
    rw [Int.fmod_def, Int.mul_comm]
  rw [key]
  clear key
  cases old_r with
  | ofNat m =>
    cases m with
    | zero =>
      have heq : Int.fmod (Int.ofNat 0) r = 0 := Int.zero_fmod r
      rw [heq]
      omega
    | succ m =>
      cases r with
      | ofNat n =>
        have hn : n ≠ 0 := fun h => hr (by simp [h])
        have heq : Int.fmod (Int.ofNat (m + 1)) (Int.ofNat n) =
            Int.ofNat ((m + 1) % n) := rfl
        rw [heq]
        simpa using Nat.mod_lt _ (Nat.pos_of_ne_zero hn)
      | negSucc n =>
        have heq : Int.fmod (Int.ofNat (m + 1)) (Int.negSucc n) =
            Int.subNatNat (m % (n + 1)) n := rfl
        rw [heq, Int.subNatNat_eq_coe]
        have hm := Nat.mod_lt m (show 0 < n + 1 by omega)
        simp only [Int.natAbs_negSucc]
        omega
  | negSucc m =>
    cases r with
    | ofNat n =>
      have hn : n ≠ 0 := fun h => hr (by simp [h])
      have heq : Int.fmod (Int.negSucc m) (Int.ofNat n) =
          Int.subNatNat n (Nat.succ (m % n)) := rfl
      rw [heq, Int.subNatNat_eq_coe]
      have hm := Nat.mod_lt m (Nat.pos_of_ne_zero hn)
      simp only [Int.ofNat_eq_natCast]
      omega
    | negSucc n =>
      have heq : Int.fmod (Int.negSucc m) (Int.negSucc n) =
          -Int.ofNat ((m + 1) % (n + 1)) := rfl
      rw [heq]
      have hm := Nat.mod_lt (m + 1) (show 0 < n + 1 by omega)
      simp only [Int.ofNat_eq_natCast, Int.negSucc_eq]
      omega

/-- Calculate modular inverse using extended Euclidean algorithm.  Python's
`%` is floor modulus, `Int.fmod`. -/
def mod_inverse (a m : Int) : Int :=
  let a' := if a < 0 then ((a.fmod m) + m).fmod m else a
  (egcdLoop a' m 1 0).fmod m

/-- Add two points on the secp256k1 elliptic curve.  The source's control
flow computes a slope `s` either by the tangent rule (equal points) or the
chord rule (distinct x), returning infinity when the points are mutual
negations, and builds the result through the validating constructor. -/
def point_add (p1 p2 : Point) : Except PointError Point :=
  if p1.is_infinity then mkPoint p2.x p2.y
  else if p2.is_infinity then mkPoint p1.x p1.y
  else
    match p1.x, p1.y, p2.x, p2.y with
    | some x1, some y1, some x2, some y2 =>
      if x1 = x2 ∧ y1 ≠ y2 then
        .ok ⟨none, none⟩
      else
        let s :=
          if x1 = x2 then
            (3 * x1 * x1 * mod_inverse (2 * y1) (P : Int)).fmod (P : Int)
          else
            ((y2 - y1) * mod_inverse (x2 - x1) (P : Int)).fmod (P : Int)
        let x3 := (s * s - x1 - x2).fmod (P : Int)
        let y3 := (s * (x1 - x3) - y1).fmod (P : Int)
        mkPoint (some x3) (some y3)
    | _, _, _, _ => .error .assertionFailed

/-- The `while k` loop of `point_multiply`: conditionally add the addend into
the accumulator, double the addend, and shift the scalar right. -/
def multLoop (k : Nat) (result addend : Point) : Except PointError Point :=
  if k = 0 then .ok result
  else do
    let result' ← if k &&& 1 = 1 then point_add result addend else .ok result
    let addend' ← point_add addend addend
    multLoop (k >>> 1) result' addend'
termination_by k
decreasing_by
  rename_i hk
  simp only [Nat.shiftRight_one]
  omega

/-- Multiply a point by a scalar using double-and-add method.  The scalar is
a natural number: the claims concern `k ≥ 0`, and the source loop does not
terminate on negative scalars. -/
def point_multiply (k : Nat) (point : Point) : Except PointError Point :=
  if k = 0 then .ok ⟨none, none⟩
  else if k = 1 then mkPoint point.x point.y
  else do
    let addend ← mkPoint point.x point.y
    multLoop k ⟨none, none⟩ addend

/-- Modelled from the spec: the reference model for scalar multiplication,
the `k`-fold sum of `point` under `point_add`, maintaining an accumulator
initialized to infinity and adding `point` into it `k` times. -/
def naiveMultiply (k : Nat) (point : Point) : Except PointError Point :=
  match k with
  | 0 => .ok ⟨none, none⟩
  | k + 1 => do
    let r ← naiveMultiply k point
    point_add r point

/-- A valid point in the sense of the specification's data model: either the
point at infinity, or a pair of field elements `(x, y)` with
`0 ≤ x, y < p` satisfying the curve equation `y² ≡ x³ + 7 (mod p)`. -/
def ValidSpec (p : Point) : Prop :=
  p = ⟨none, none⟩ ∨
    ∃ x y : Int, p = ⟨some x, some y⟩ ∧ 0 ≤ x ∧ x < (P : Int) ∧ 0 ≤ y ∧
      y < (P : Int) ∧ (y * y) ≡ (x * x * x + 7) [ZMOD (P : Int)]

/-- The secp256k1 curve `y² = x³ + 7` as a Weierstrass curve over the prime
field `ZMod P`. -/
def secpCurve : WeierstrassCurve.Affine (ZMod P) :=
  { a₁ := 0, a₂ := 0, a₃ := 0, a₄ := 0, a₆ := 7 }

/-- Concretize a Mathlib nonsingular point of the curve into a library
`Point` with coordinates normalized into `[0, p)`. -/
def fromW : secpCurve.Point → Point
  | .zero => ⟨none, none⟩
  | @WeierstrassCurve.Affine.Point.some _ _ _ x y _ =>
    ⟨some (x.val : Int), some (y.val : Int)⟩

instance : NeZero P := ⟨by decide⟩

/-- The common tail of the finite-point branches of `point_add`: given the
slope `s`, compute the result coordinates and construct the validated
point. -/
def addFinish (x1 y1 x2 s : Int) : Except PointError Point :=
  let x3 := (s * s - x1 - x2).fmod (P : Int)
  let y3 := (s * (x1 - x3) - y1).fmod (P : Int)
  mkPoint (some x3) (some y3)

theorem powMod_eq (fuel : Nat) : ∀ a e m : Nat, e < 2 ^ fuel →
    powMod fuel a e m = a ^ e % m := by
  induction fuel with
  | zero =>
    intro a e m he
    interval_cases e
    simp [powMod]
  | succ f ih =>
    intro a e m he
    rw [powMod]
    by_cases h0 : e = 0
    · simp [h0]
    · rw [if_neg h0]
      have hlt : e / 2 < 2 ^ f := by
        rw [Nat.div_lt_iff_lt_mul (by norm_num)]
        calc e < 2 ^ (f + 1) := he
        _ = 2 ^ f * 2 := by rw [pow_succ]
      rw [ih ((a * a) % m) (e / 2) m hlt]
      have key : ((a * a) % m) ^ (e / 2) % m = a ^ (2 * (e / 2)) % m := by
        conv_lhs => rw [← Nat.pow_mod]
        rw [← pow_two, ← pow_mul]
      rcases Nat.even_or_odd e with he2 | he2
      · have hmod : e % 2 = 0 := Nat.even_iff.mp he2
        have h2 : 2 * (e / 2) = e := by omega
        rw [if_neg (by omega), key, h2]
      · have hmod : e % 2 = 1 := Nat.odd_iff.mp he2
        have h2 : 2 * (e / 2) + 1 = e := by omega
        rw [if_pos hmod, Nat.mul_mod, key, Nat.mod_mod_of_dvd _ dvd_rfl, ← Nat.mul_mod,
          ← pow_succ, h2]

theorem powMod_lt (fuel : Nat) : ∀ a e m : Nat, 0 < m → powMod fuel a e m < m := by
  induction fuel with
  | zero => intro a e m hm; exact Nat.mod_lt _ hm
  | succ f ih =>
    intro a e m hm
    rw [powMod]
    by_cases h0 : e = 0
    · simpa [h0] using Nat.mod_lt 1 hm
    · rw [if_neg h0]
      by_cases h1 : e % 2 = 1
      · simpa [h1] using Nat.mod_lt _ hm
      · simpa [h1] using ih ((a * a) % m) (e / 2) m hm

theorem zmod_pow_bridge (p a e : Nat) (he : e < 2 ^ 256) :
    ((a : Nat) : ZMod p) ^ e = ((powMod 256 a e p : Nat) : ZMod p) := by
  rw [powMod_eq 256 a e p he, ZMod.natCast_mod, Nat.cast_pow]

theorem zmod_pow_eq_one (p a e : Nat) (he : e < 2 ^ 256)
    (h : powMod 256 a e p = 1) : ((a : Nat) : ZMod p) ^ e = 1 := by
  rw [zmod_pow_bridge p a e he, h, Nat.cast_one]

theorem zmod_pow_ne_one (p a e : Nat) (hp : 1 < p) (he : e < 2 ^ 256)
    (h : powMod 256 a e p ≠ 1) : ((a : Nat) : ZMod p) ^ e ≠ 1 := by
  rw [zmod_pow_bridge p a e he]
  intro hcontra
  apply h
  have h1 : ((powMod 256 a e p : Nat) : ZMod p) = ((1 : Nat) : ZMod p) := by
    simpa using hcontra
  have h2 := (ZMod.natCast_eq_natCast_iff' _ _ _).mp h1
  rwa [Nat.mod_eq_of_lt (powMod_lt 256 a e p (by omega)), Nat.mod_eq_of_lt hp] at h2

theorem prime_dvd_pow_step {q a e b : Nat} (hq : q.Prime) (ha : a.Prime)
    (h : q ∣ a ^ e * b) : q = a ∨ q ∣ b := by
  rcases (Nat.Prime.dvd_mul hq).mp h with h' | h'
  · exact Or.inl ((Nat.prime_dvd_prime_iff_eq hq ha).mp (hq.dvd_of_dvd_pow h'))
  · exact Or.inr h'

theorem prime_dvd_pow_end {q a e : Nat} (hq : q.Prime) (ha : a.Prime)
    (h : q ∣ a ^ e) : q = a :=
  (Nat.prime_dvd_prime_iff_eq hq ha).mp (hq.dvd_of_dvd_pow h)

set_option maxRecDepth 4000

theorem prime_1206781 : Nat.Prime 1206781 := by
  have h2 : Nat.Prime 2 := by norm_num
  have h3 : Nat.Prime 3 := by norm_num
  have h5 : Nat.Prime 5 := by norm_num
  have h20113 : Nat.Prime 20113 := by norm_num
  have hp : 1 < 1206781 := by norm_num
  apply lucas_primality 1206781 ((10 : Nat) : ZMod 1206781)
  · exact zmod_pow_eq_one 1206781 10 (1206781 - 1) (by decide) (by decide)
  · intro q hq hdvd
    have hfac : 1206781 - 1 = 2 ^ 2 * (3 ^ 1 * (5 ^ 1 * (20113 ^ 1))) := by norm_num
    rw [hfac] at hdvd
    rcases prime_dvd_pow_step hq h2 hdvd with rfl | hdvd
    · exact zmod_pow_ne_one 1206781 10 ((1206781 - 1) / 2) hp (by decide) (by decide)
    rcases prime_dvd_pow_step hq h3 hdvd with rfl | hdvd
    · exact zmod_pow_ne_one 1206781 10 ((1206781 - 1) / 3) hp (by decide) (by decide)
    rcases prime_dvd_pow_step hq h5 hdvd with rfl | hdvd
    · exact zmod_pow_ne_one 1206781 10 ((1206781 - 1) / 5) hp (by decide) (by decide)
    have hlast := prime_dvd_pow_end hq h20113 hdvd
    subst hlast
    exact zmod_pow_ne_one 1206781 10 ((1206781 - 1) / 20113) hp (by decide) (by decide)

theorem prime_7240687 : Nat.Prime 7240687 := by
  have h2 : Nat.Prime 2 := by norm_num
  have h3 : Nat.Prime 3 := by norm_num
  have hbig1206781 : Nat.Prime 1206781 := prime_1206781
  have hp : 1 < 7240687 := by norm_num
  apply lucas_primality 7240687 ((3 : Nat) : ZMod 7240687)
  · exact zmod_pow_eq_one 7240687 3 (7240687 - 1) (by decide) (by decide)
  · intro q hq hdvd
    have hfac : 7240687 - 1 = 2 ^ 1 * (3 ^ 1 * (1206781 ^ 1)) := by norm_num
    rw [hfac] at hdvd
    rcases prime_dvd_pow_step hq h2 hdvd with rfl | hdvd
    · exact zmod_pow_ne_one 7240687 3 ((7240687 - 1) / 2) hp (by decide) (by decide)
    rcases prime_dvd_pow_step hq h3 hdvd with rfl | hdvd
    · exact zmod_pow_ne_one 7240687 3 ((7240687 - 1) / 3) hp (by decide) (by decide)
    have hlast := prime_dvd_pow_end hq hbig1206781 hdvd
    subst hlast
    exact zmod_pow_ne_one 7240687 3 ((7240687 - 1) / 1206781) hp (by decide) (by decide)

theorem prime_13331831 : Nat.Prime 13331831 := by
  have h2 : Nat.Prime 2 := by norm_num
  have h5 : Nat.Prime 5 := by norm_num
  have h971 : Nat.Prime 971 := by norm_num
  have h1373 : Nat.Prime 1373 := by norm_num
  have hp : 1 < 13331831 := by norm_num
  apply lucas_primality 13331831 ((13 : Nat) : ZMod 13331831)
  · exact zmod_pow_eq_one 13331831 13 (13331831 - 1) (by decide) (by decide)
  · intro q hq hdvd
    have hfac : 13331831 - 1 = 2 ^ 1 * (5 ^ 1 * (971 ^ 1 * (1373 ^ 1))) := by norm_num
    rw [hfac] at hdvd
    rcases prime_dvd_pow_step hq h2 hdvd with rfl | hdvd
    · exact zmod_pow_ne_one 13331831 13 ((13331831 - 1) / 2) hp (by decide) (by decide)
    rcases prime_dvd_pow_step hq h5 hdvd with rfl | hdvd
    · exact zmod_pow_ne_one 13331831 13 ((13331831 - 1) / 5) hp (by decide) (by decide)
    rcases prime_dvd_pow_step hq h971 hdvd with rfl | hdvd
    · exact zmod_pow_ne_one 13331831 13 ((13331831 - 1) / 971) hp (by decide) (by decide)
    have hlast := prime_dvd_pow_end hq h1373 hdvd
    subst hlast
    exact zmod_pow_ne_one 13331831 13 ((13331831 - 1) / 1373) hp (by decide) (by decide)

theorem prime_107590001 : Nat.Prime 107590001 := by
  have h2 : Nat.Prime 2 := by norm_num
  have h5 : Nat.Prime 5 := by norm_num
  have h7 : Nat.Prime 7 := by norm_num
  have h29 : Nat.Prime 29 := by norm_num
  have h53 : Nat.Prime 53 := by norm_num
  have hp : 1 < 107590001 := by norm_num
  apply lucas_primality 107590001 ((3 : Nat) : ZMod 107590001)
  · exact zmod_pow_eq_one 107590001 3 (107590001 - 1) (by decide) (by decide)
  · intro q hq hdvd
    have hfac : 107590001 - 1 = 2 ^ 4 * (5 ^ 4 * (7 ^ 1 * (29 ^ 1 * (53 ^ 1)))) := by norm_num
    rw [hfac] at hdvd
    rcases prime_dvd_pow_step hq h2 hdvd with rfl | hdvd
    · exact zmod_pow_ne_one 107590001 3 ((107590001 - 1) / 2) hp (by decide) (by decide)
    rcases prime_dvd_pow_step hq h5 hdvd with rfl | hdvd
    · exact zmod_pow_ne_one 107590001 3 ((107590001 - 1) / 5) hp (by decide) (by decide)
    rcases prime_dvd_pow_step hq h7 hdvd with rfl | hdvd
    · exact zmod_pow_ne_one 107590001 3 ((107590001 - 1) / 7) hp (by decide) (by decide)
    rcases prime_dvd_pow_step hq h29 hdvd with rfl | hdvd
    · exact zmod_pow_ne_one 107590001 3 ((107590001 - 1) / 29) hp (by decide) (by decide)
    have hlast := prime_dvd_pow_end hq h53 hdvd
    subst hlast
    exact zmod_pow_ne_one 107590001 3 ((107590001 - 1) / 53) hp (by decide) (by decide)

theorem prime_p18 : Nat.Prime 173378833005251801 := by
  have h2 : Nat.Prime 2 := by norm_num
  have h5 : Nat.Prime 5 := by norm_num
  have h2621 : Nat.Prime 2621 := by norm_num
  have h24809 : Nat.Prime 24809 := by norm_num
  have h13331831 : Nat.Prime 13331831 := prime_13331831
  have hp : 1 < 173378833005251801 := by norm_num
  apply lucas_primality 173378833005251801 ((6 : Nat) : ZMod 173378833005251801)
  · exact zmod_pow_eq_one 173378833005251801 6 (173378833005251801 - 1) (by decide) (by decide)
  · intro q hq hdvd
    have hfac : 173378833005251801 - 1 = 2 ^ 3 * (5 ^ 2 * (2621 ^ 1 * (24809 ^ 1 * (13331831 ^ 1)))) := by norm_num
    rw [hfac] at hdvd
    rcases prime_dvd_pow_step hq h2 hdvd with rfl | hdvd
    · exact zmod_pow_ne_one 173378833005251801 6 ((173378833005251801 - 1) / 2) hp (by decide) (by decide)
    rcases prime_dvd_pow_step hq h5 hdvd with rfl | hdvd
    · exact zmod_pow_ne_one 173378833005251801 6 ((173378833005251801 - 1) / 5) hp (by decide) (by decide)
    rcases prime_dvd_pow_step hq h2621 hdvd with rfl | hdvd
    · exact zmod_pow_ne_one 173378833005251801 6 ((173378833005251801 - 1) / 2621) hp (by decide) (by decide)
    rcases prime_dvd_pow_step hq h24809 hdvd with rfl | hdvd
    · exact zmod_pow_ne_one 173378833005251801 6 ((173378833005251801 - 1) / 24809) hp (by decide) (by decide)
    have hlast := prime_dvd_pow_end hq h13331831 hdvd
    subst hlast
    exact zmod_pow_ne_one 173378833005251801 6 ((173378833005251801 - 1) / 13331831) hp (by decide) (by decide)

theorem prime_p23 : Nat.Prime 22149492674086928081353 := by
  have h2 : Nat.Prime 2 := by norm_num
  have h3 : Nat.Prime 3 := by norm_num
  have h5323 : Nat.Prime 5323 := by norm_num
  have hbig173378833005251801 : Nat.Prime 173378833005251801 := prime_p18
  have hp : 1 < 22149492674086928081353 := by norm_num
  apply lucas_primality 22149492674086928081353 ((5 : Nat) : ZMod 22149492674086928081353)
  · exact zmod_pow_eq_one 22149492674086928081353 5 (22149492674086928081353 - 1) (by decide) (by decide)
  · intro q hq hdvd
    have hfac : 22149492674086928081353 - 1 = 2 ^ 3 * (3 ^ 1 * (5323 ^ 1 * (173378833005251801 ^ 1))) := by norm_num
    rw [hfac] at hdvd
    rcases prime_dvd_pow_step hq h2 hdvd with rfl | hdvd
    · exact zmod_pow_ne_one 22149492674086928081353 5 ((22149492674086928081353 - 1) / 2) hp (by decide) (by decide)
    rcases prime_dvd_pow_step hq h3 hdvd with rfl | hdvd
    · exact zmod_pow_ne_one 22149492674086928081353 5 ((22149492674086928081353 - 1) / 3) hp (by decide) (by decide)
    rcases prime_dvd_pow_step hq h5323 hdvd with rfl | hdvd
    · exact zmod_pow_ne_one 22149492674086928081353 5 ((22149492674086928081353 - 1) / 5323) hp (by decide) (by decide)
    have hlast := prime_dvd_pow_end hq hbig173378833005251801 hdvd
    subst hlast
    exact zmod_pow_ne_one 22149492674086928081353 5 ((22149492674086928081353 - 1) / 173378833005251801) hp (by decide) (by decide)

theorem prime_p24 : Nat.Prime 132896956044521568488119 := by
  have h2 : Nat.Prime 2 := by norm_num
  have h3 : Nat.Prime 3 := by norm_num
  have hbig22149492674086928081353 : Nat.Prime 22149492674086928081353 := prime_p23
  have hp : 1 < 132896956044521568488119 := by norm_num
  apply lucas_primality 132896956044521568488119 ((6 : Nat) : ZMod 132896956044521568488119)
  · exact zmod_pow_eq_one 132896956044521568488119 6 (132896956044521568488119 - 1) (by decide) (by decide)
  · intro q hq hdvd
    have hfac : 132896956044521568488119 - 1 = 2 ^ 1 * (3 ^ 1 * (22149492674086928081353 ^ 1)) := by norm_num
    rw [hfac] at hdvd
    rcases prime_dvd_pow_step hq h2 hdvd with rfl | hdvd
    · exact zmod_pow_ne_one 132896956044521568488119 6 ((132896956044521568488119 - 1) / 2) hp (by decide) (by decide)
    rcases prime_dvd_pow_step hq h3 hdvd with rfl | hdvd
    · exact zmod_pow_ne_one 132896956044521568488119 6 ((132896956044521568488119 - 1) / 3) hp (by decide) (by decide)
    have hlast := prime_dvd_pow_end hq hbig22149492674086928081353 hdvd
    subst hlast
    exact zmod_pow_ne_one 132896956044521568488119 6 ((132896956044521568488119 - 1) / 22149492674086928081353) hp (by decide) (by decide)

theorem prime_p39 : Nat.Prime 255515944373312847190720520512484175977 := by
  have h2 : Nat.Prime 2 := by norm_num
  have h7 : Nat.Prime 7 := by norm_num
  have h11 : Nat.Prime 11 := by norm_num
  have h1627 : Nat.Prime 1627 := by norm_num
  have h2657 : Nat.Prime 2657 := by norm_num
  have h4423 : Nat.Prime 4423 := by norm_num
  have h41201 : Nat.Prime 41201 := by norm_num
  have h96557 : Nat.Prime 96557 := by norm_num
  have h7240687 : Nat.Prime 7240687 := prime_7240687
  have h107590001 : Nat.Prime 107590001 := prime_107590001
  have hp : 1 < 255515944373312847190720520512484175977 := by norm_num
  apply lucas_primality 255515944373312847190720520512484175977 ((3 : Nat) : ZMod 255515944373312847190720520512484175977)
  · exact zmod_pow_eq_one 255515944373312847190720520512484175977 3 (255515944373312847190720520512484175977 - 1) (by decide) (by decide)
  · intro q hq hdvd
    have hfac : 255515944373312847190720520512484175977 - 1 = 2 ^ 3 * (7 ^ 2 * (11 ^ 1 * (1627 ^ 1 * (2657 ^ 1 * (4423 ^ 1 * (41201 ^ 1 * (96557 ^ 1 * (7240687 ^ 1 * (107590001 ^ 1))))))))) := by norm_num
    rw [hfac] at hdvd
    rcases prime_dvd_pow_step hq h2 hdvd with rfl | hdvd
    · exact zmod_pow_ne_one 255515944373312847190720520512484175977 3 ((255515944373312847190720520512484175977 - 1) / 2) hp (by decide) (by decide)
    rcases prime_dvd_pow_step hq h7 hdvd with rfl | hdvd
    · exact zmod_pow_ne_one 255515944373312847190720520512484175977 3 ((255515944373312847190720520512484175977 - 1) / 7) hp (by decide) (by decide)
    rcases prime_dvd_pow_step hq h11 hdvd with rfl | hdvd
    · exact zmod_pow_ne_one 255515944373312847190720520512484175977 3 ((255515944373312847190720520512484175977 - 1) / 11) hp (by decide) (by decide)
    rcases prime_dvd_pow_step hq h1627 hdvd with rfl | hdvd
    · exact zmod_pow_ne_one 255515944373312847190720520512484175977 3 ((255515944373312847190720520512484175977 - 1) / 1627) hp (by decide) (by decide)
    rcases prime_dvd_pow_step hq h2657 hdvd with rfl | hdvd
    · exact zmod_pow_ne_one 255515944373312847190720520512484175977 3 ((255515944373312847190720520512484175977 - 1) / 2657) hp (by decide) (by decide)
    rcases prime_dvd_pow_step hq h4423 hdvd with rfl | hdvd
    · exact zmod_pow_ne_one 255515944373312847190720520512484175977 3 ((255515944373312847190720520512484175977 - 1) / 4423) hp (by decide) (by decide)
    rcases prime_dvd_pow_step hq h41201 hdvd with rfl | hdvd
    · exact zmod_pow_ne_one 255515944373312847190720520512484175977 3 ((255515944373312847190720520512484175977 - 1) / 41201) hp (by decide) (by decide)
    rcases prime_dvd_pow_step hq h96557 hdvd with rfl | hdvd
    · exact zmod_pow_ne_one 255515944373312847190720520512484175977 3 ((255515944373312847190720520512484175977 - 1) / 96557) hp (by decide) (by decide)
    rcases prime_dvd_pow_step hq h7240687 hdvd with rfl | hdvd
    · exact zmod_pow_ne_one 255515944373312847190720520512484175977 3 ((255515944373312847190720520512484175977 - 1) / 7240687) hp (by decide) (by decide)
    have hlast := prime_dvd_pow_end hq h107590001 hdvd
    subst hlast
    exact zmod_pow_ne_one 255515944373312847190720520512484175977 3 ((255515944373312847190720520512484175977 - 1) / 107590001) hp (by decide) (by decide)

theorem prime_q72 : Nat.Prime 205115282021455665897114700593932402728804164701536103180137503955397371 := by
  have h2 : Nat.Prime 2 := by norm_num
  have h3 : Nat.Prime 3 := by norm_num
  have h5 : Nat.Prime 5 := by norm_num
  have h29 : Nat.Prime 29 := by norm_num
  have h31 : Nat.Prime 31 := by norm_num
  have h7723 : Nat.Prime 7723 := by norm_num
  have hbig132896956044521568488119 : Nat.Prime 132896956044521568488119 := prime_p24
  have hbig255515944373312847190720520512484175977 : Nat.Prime 255515944373312847190720520512484175977 := prime_p39
  have hp : 1 < 205115282021455665897114700593932402728804164701536103180137503955397371 := by norm_num
  apply lucas_primality 205115282021455665897114700593932402728804164701536103180137503955397371 ((10 : Nat) : ZMod 205115282021455665897114700593932402728804164701536103180137503955397371)
  · exact zmod_pow_eq_one 205115282021455665897114700593932402728804164701536103180137503955397371 10 (205115282021455665897114700593932402728804164701536103180137503955397371 - 1) (by decide) (by decide)
  · intro q hq hdvd
    have hfac : 205115282021455665897114700593932402728804164701536103180137503955397371 - 1 = 2 ^ 1 * (3 ^ 1 * (5 ^ 1 * (29 ^ 2 * (31 ^ 1 * (7723 ^ 1 * (132896956044521568488119 ^ 1 * (255515944373312847190720520512484175977 ^ 1))))))) := by norm_num
    rw [hfac] at hdvd
    rcases prime_dvd_pow_step hq h2 hdvd with rfl | hdvd
    · exact zmod_pow_ne_one 205115282021455665897114700593932402728804164701536103180137503955397371 10 ((205115282021455665897114700593932402728804164701536103180137503955397371 - 1) / 2) hp (by decide) (by decide)
    rcases prime_dvd_pow_step hq h3 hdvd with rfl | hdvd
    · exact zmod_pow_ne_one 205115282021455665897114700593932402728804164701536103180137503955397371 10 ((205115282021455665897114700593932402728804164701536103180137503955397371 - 1) / 3) hp (by decide) (by decide)
    rcases prime_dvd_pow_step hq h5 hdvd with rfl | hdvd
    · exact zmod_pow_ne_one 205115282021455665897114700593932402728804164701536103180137503955397371 10 ((205115282021455665897114700593932402728804164701536103180137503955397371 - 1) / 5) hp (by decide) (by decide)
    rcases prime_dvd_pow_step hq h29 hdvd with rfl | hdvd
    · exact zmod_pow_ne_one 205115282021455665897114700593932402728804164701536103180137503955397371 10 ((205115282021455665897114700593932402728804164701536103180137503955397371 - 1) / 29) hp (by decide) (by decide)
    rcases prime_dvd_pow_step hq h31 hdvd with rfl | hdvd
    · exact zmod_pow_ne_one 205115282021455665897114700593932402728804164701536103180137503955397371 10 ((205115282021455665897114700593932402728804164701536103180137503955397371 - 1) / 31) hp (by decide) (by decide)
    rcases prime_dvd_pow_step hq h7723 hdvd with rfl | hdvd
    · exact zmod_pow_ne_one 205115282021455665897114700593932402728804164701536103180137503955397371 10 ((205115282021455665897114700593932402728804164701536103180137503955397371 - 1) / 7723) hp (by decide) (by decide)
    rcases prime_dvd_pow_step hq hbig132896956044521568488119 hdvd with rfl | hdvd
    · exact zmod_pow_ne_one 205115282021455665897114700593932402728804164701536103180137503955397371 10 ((205115282021455665897114700593932402728804164701536103180137503955397371 - 1) / 132896956044521568488119) hp (by decide) (by decide)
    have hlast := prime_dvd_pow_end hq hbig255515944373312847190720520512484175977 hdvd
    subst hlast
    exact zmod_pow_ne_one 205115282021455665897114700593932402728804164701536103180137503955397371 10 ((205115282021455665897114700593932402728804164701536103180137503955397371 - 1) / 255515944373312847190720520512484175977) hp (by decide) (by decide)

theorem P_prime_nat : Nat.Prime 115792089237316195423570985008687907853269984665640564039457584007908834671663 := by
  have h2 : Nat.Prime 2 := by norm_num
  have h3 : Nat.Prime 3 := by norm_num
  have h7 : Nat.Prime 7 := by norm_num
  have h13441 : Nat.Prime 13441 := by norm_num
  have hbig205115282021455665897114700593932402728804164701536103180137503955397371 : Nat.Prime 205115282021455665897114700593932402728804164701536103180137503955397371 := prime_q72
  have hp : 1 < 115792089237316195423570985008687907853269984665640564039457584007908834671663 := by norm_num
  apply lucas_primality 115792089237316195423570985008687907853269984665640564039457584007908834671663 ((3 : Nat) : ZMod 115792089237316195423570985008687907853269984665640564039457584007908834671663)
  · exact zmod_pow_eq_one 115792089237316195423570985008687907853269984665640564039457584007908834671663 3 (115792089237316195423570985008687907853269984665640564039457584007908834671663 - 1) (by decide) (by decide)
  · intro q hq hdvd
    have hfac : 115792089237316195423570985008687907853269984665640564039457584007908834671663 - 1 = 2 ^ 1 * (3 ^ 1 * (7 ^ 1 * (13441 ^ 1 * (205115282021455665897114700593932402728804164701536103180137503955397371 ^ 1)))) := by norm_num
    rw [hfac] at hdvd
    rcases prime_dvd_pow_step hq h2 hdvd with rfl | hdvd
    · exact zmod_pow_ne_one 115792089237316195423570985008687907853269984665640564039457584007908834671663 3 ((115792089237316195423570985008687907853269984665640564039457584007908834671663 - 1) / 2) hp (by decide) (by decide)
    rcases prime_dvd_pow_step hq h3 hdvd with rfl | hdvd
    · exact zmod_pow_ne_one 115792089237316195423570985008687907853269984665640564039457584007908834671663 3 ((115792089237316195423570985008687907853269984665640564039457584007908834671663 - 1) / 3) hp (by decide) (by decide)
    rcases prime_dvd_pow_step hq h7 hdvd with rfl | hdvd
    · exact zmod_pow_ne_one 115792089237316195423570985008687907853269984665640564039457584007908834671663 3 ((115792089237316195423570985008687907853269984665640564039457584007908834671663 - 1) / 7) hp (by decide) (by decide)
    rcases prime_dvd_pow_step hq h13441 hdvd with rfl | hdvd
    · exact zmod_pow_ne_one 115792089237316195423570985008687907853269984665640564039457584007908834671663 3 ((115792089237316195423570985008687907853269984665640564039457584007908834671663 - 1) / 13441) hp (by decide) (by decide)
    have hlast := prime_dvd_pow_end hq hbig205115282021455665897114700593932402728804164701536103180137503955397371 hdvd
    subst hlast
    exact zmod_pow_ne_one 115792089237316195423570985008687907853269984665640564039457584007908834671663 3 ((115792089237316195423570985008687907853269984665640564039457584007908834671663 - 1) / 205115282021455665897114700593932402728804164701536103180137503955397371) hp (by decide) (by decide)

theorem int_gcd_sub_mul (q x y : Int) : Int.gcd y (x - q * y) = Int.gcd x y := by
  apply Nat.dvd_antisymm
  · rw [← Int.natCast_dvd_natCast]
    apply Int.dvd_gcd
    · have h1 : (↑(Int.gcd y (x - q * y)) : Int) ∣ y := Int.gcd_dvd_left
      have h2 : (↑(Int.gcd y (x - q * y)) : Int) ∣ x - q * y := Int.gcd_dvd_right
      have h3 := dvd_add h2 (h1.mul_left q)
      simpa using h3
    · exact Int.gcd_dvd_left
  · rw [← Int.natCast_dvd_natCast]
    apply Int.dvd_gcd
    · exact Int.gcd_dvd_right
    · have h1 : (↑(Int.gcd x y) : Int) ∣ x := Int.gcd_dvd_left
      have h2 : (↑(Int.gcd x y) : Int) ∣ y := Int.gcd_dvd_right
      exact dvd_sub h1 (h2.mul_left q)

theorem int_gcd_congr {m x y : Int} (h : x ≡ y [ZMOD m]) :
    Int.gcd x m = Int.gcd y m := by
  obtain ⟨k, hk⟩ := Int.ModEq.dvd h
  have hx : x = y - m * k := by omega
  rw [hx, Int.gcd_comm, Int.mul_comm, int_gcd_sub_mul k y m, Int.gcd_comm]

theorem egcdLoop_zero (old_r old_s s : Int) : egcdLoop old_r 0 old_s s = old_s := by
  rw [egcdLoop]
  simp

theorem egcdLoop_step (old_r r old_s s : Int) (hr : r ≠ 0) :
    egcdLoop old_r r old_s s =
      egcdLoop r (old_r - old_r.fdiv r * r) s (old_s - old_r.fdiv r * s) := by
  conv_lhs => rw [egcdLoop]
  rw [dif_neg hr]

theorem egcdLoop_spec (a m : Int) :
    ∀ (n : Nat) (old_r r old_s s : Int), r.natAbs ≤ n → 0 ≤ old_r → 0 ≤ r →
      old_r ≡ old_s * a [ZMOD m] → r ≡ s * a [ZMOD m] →
      (egcdLoop old_r r old_s s * a) ≡ ((Int.gcd old_r r : Nat) : Int) [ZMOD m] := by
  intro n
  induction n with
  | zero =>
    intro old_r r old_s s hn h1 h2 hc1 hc2
    have hr0 : r = 0 := by omega
    subst hr0
    rw [egcdLoop_zero, Int.gcd_zero_right, Int.natAbs_of_nonneg h1]
    exact hc1.symm
  | succ k ih =>
    intro old_r r old_s s hn h1 h2 hc1 hc2
    by_cases hr : r = 0
    · subst hr
      rw [egcdLoop_zero, Int.gcd_zero_right, Int.natAbs_of_nonneg h1]
      exact hc1.symm
    · have hrpos : 0 < r := lt_of_le_of_ne h2 (Ne.symm hr)
      rw [egcdLoop, dif_neg hr]
      have hfm : old_r - old_r.fdiv r * r = old_r.fmod r := by
        rw [Int.fmod_def, Int.mul_comm]
      have hnn : 0 ≤ old_r.fmod r := Int.fmod_nonneg' old_r hrpos
      have hlt2 : old_r.fmod r < r := Int.fmod_lt_of_pos old_r hrpos
      have hcong : old_r - old_r.fdiv r * r ≡ (old_s - old_r.fdiv r * s) * a [ZMOD m] := by
        have hstep := hc1.sub (hc2.mul_left (old_r.fdiv r))
        calc old_r - old_r.fdiv r * r
            ≡ old_s * a - old_r.fdiv r * (s * a) [ZMOD m] := hstep
          _ = (old_s - old_r.fdiv r * s) * a := by ring
      have hrec := ih r (old_r - old_r.fdiv r * r) s (old_s - old_r.fdiv r * s)
        (by rw [hfm]; omega) h2 (by rw [hfm]; exact hnn) hc2 hcong
      rw [int_gcd_sub_mul (old_r.fdiv r) old_r r] at hrec
      exact hrec

theorem mod_inverse_spec (a m : Int) (hm : 0 < m) (hg : Int.gcd a m = 1) :
    0 ≤ mod_inverse a m ∧ mod_inverse a m < m ∧ a * mod_inverse a m ≡ 1 [ZMOD m] := by
  have hfe : ∀ x : Int, x.fmod m = x % m := fun x => Int.fmod_eq_emod x (le_of_lt hm)
  have hm0 : m ≠ 0 := ne_of_gt hm
  set a' := if a < 0 then ((a.fmod m) + m).fmod m else a with ha'
  have ha'nn : 0 ≤ a' := by
    rw [ha']
    split
    · rw [hfe]
      exact Int.emod_nonneg _ hm0
    · omega
  have ha'cong : a' ≡ a [ZMOD m] := by
    rw [ha']
    split
    · show ((a.fmod m + m).fmod m) % m = a % m
      rw [hfe, hfe]
      rw [Int.emod_emod]
      conv_lhs => rw [show a % m + m = a % m + 1 * m by ring]
      rw [Int.add_mul_emod_self, Int.emod_emod]
    · rfl
  have hg' : Int.gcd a' m = 1 := by rw [int_gcd_congr ha'cong]; exact hg
  have hminit : m ≡ 0 * a [ZMOD m] := by
    show m % m = (0 * a) % m
    rw [Int.emod_self, Int.zero_mul, Int.zero_emod]
  have hainit : a' ≡ 1 * a [ZMOD m] := by
    rw [Int.one_mul]
    exact ha'cong
  have hrun := egcdLoop_spec a m m.natAbs a' m 1 0 le_rfl ha'nn (le_of_lt hm)
    hainit hminit
  rw [hg'] at hrun
  have hmi : mod_inverse a m = (egcdLoop a' m 1 0).fmod m := by
    rw [mod_inverse]
  rw [hmi, hfe]
  refine ⟨Int.emod_nonneg _ hm0, Int.emod_lt_of_pos _ hm, ?_⟩
  have hb : egcdLoop a' m 1 0 % m ≡ egcdLoop a' m 1 0 [ZMOD m] := Int.emod_emod_of_dvd _ dvd_rfl
  calc a * (egcdLoop a' m 1 0 % m)
      ≡ a * egcdLoop a' m 1 0 [ZMOD m] := hb.mul_left a
    _ = egcdLoop a' m 1 0 * a := by ring
    _ ≡ ((1 : Nat) : Int) [ZMOD m] := hrun
    _ = 1 := by norm_num

theorem egcdLoop_align (a m : Int) (hm : 0 < m) :
    egcdLoop a m 1 0 = egcdLoop (a.fmod m) m 1 0 := by
  have hm0 : m ≠ 0 := ne_of_gt hm
  rw [egcdLoop_step a m 1 0 hm0, egcdLoop_step (a.fmod m) m 1 0 hm0]
  have hq : (a.fmod m).fdiv m = 0 := by
    rw [Int.fdiv_eq_ediv _ (le_of_lt hm)]
    apply Int.ediv_eq_zero_of_lt (Int.fmod_nonneg' a hm) (Int.fmod_lt_of_pos a hm)
  have h1 : a - a.fdiv m * m = a.fmod m := by rw [Int.fmod_def, Int.mul_comm]
  rw [h1, hq]
  norm_num

theorem mod_inverse_zero (m : Int) (hm : 0 < m) : mod_inverse 0 m = 0 := by
  have hm0 : m ≠ 0 := ne_of_gt hm
  rw [mod_inverse]
  norm_num
  rw [egcdLoop_step 0 m 1 0 hm0, Int.zero_fdiv]
  norm_num
  rw [egcdLoop_zero, Int.zero_fmod]

theorem mod_inverse_mod_one (a : Int) : mod_inverse a 1 = 0 := by
  rw [mod_inverse]
  exact Int.fmod_one _

theorem fmod_add_self_fmod (a m : Int) (hm : 0 < m) :
    ((a.fmod m) + m).fmod m = a.fmod m := by
  rw [Int.fmod_eq_emod _ (le_of_lt hm), Int.fmod_eq_emod _ (le_of_lt hm)]
  conv_lhs => rw [show a % m + m = a % m + 1 * m by ring]
  rw [Int.add_mul_emod_self, Int.emod_emod]

/-- Claim C3, amended: for every pair of integers `a`, `m` with `m > 0` and
`gcd(a, m) = 1`, `mod_inverse(a, m)` returns an integer `b` with `0 ≤ b < m`
and `a·b ≡ 1 (mod m)`.  (As literally stated — with the conclusion
`(a·b) mod m = 1` — the claim fails in the degenerate case `m = 1`, where
the residue of `1` is `0`; the congruence form of the contract holds for
every positive modulus.) -/
theorem mod_inverse_contract (a m : Int) (hm : 0 < m) (hg : Int.gcd a m = 1) :
    0 ≤ mod_inverse a m ∧ mod_inverse a m < m ∧
      a * mod_inverse a m ≡ 1 [ZMOD m] :=
  mod_inverse_spec a m hm hg

/-- Witness for C3's amended theorem at the concrete input `a = 3`, `m = 5`. -/
theorem mod_inverse_contract_witness :
    0 ≤ mod_inverse 3 5 ∧ mod_inverse 3 5 < 5 ∧
      (3 : Int) * mod_inverse 3 5 ≡ 1 [ZMOD 5] :=
  mod_inverse_contract 3 5 (by norm_num) (by decide)

/-- Counterexample to claim C3 as stated: at `a = 2`, `m = 1` the
preconditions `m > 0` and `gcd(a, m) = 1` hold, but the returned value `b`
does not satisfy `(a·b) mod m = 1`, since every residue modulo `1` is `0`. -/
theorem mod_inverse_contract_counterexample :
    (0 : Int) < 1 ∧ Int.gcd 2 1 = 1 ∧
      ¬ (0 ≤ mod_inverse 2 1 ∧ mod_inverse 2 1 < 1 ∧
        ((2 : Int) * mod_inverse 2 1).fmod 1 = 1) := by
  refine ⟨by norm_num, by decide, ?_⟩
  rintro ⟨h1, h2, h3⟩
  rw [Int.fmod_one] at h3
  norm_num at h3

/-- Claim C9: `mod_inverse` is insensitive to first normalizing its input
into `[0, m)` via `((a mod m) + m) mod m`: for every integer `a` and modulus
`m > 0` with `gcd(a, m) = 1`, `mod_inverse(a, m)` equals
`mod_inverse(((a mod m) + m) mod m, m)`. -/
theorem mod_inverse_normalized_input (a m : Int) (hm : 0 < m)
    (hg : Int.gcd a m = 1) :
    mod_inverse a m = mod_inverse (((a.fmod m) + m).fmod m) m := by
  rw [fmod_add_self_fmod a m hm]
  simp only [mod_inverse]
  have hnn : 0 ≤ a.fmod m := Int.fmod_nonneg' a hm
  rw [if_neg (not_lt.mpr hnn)]
  by_cases ha : a < 0
  · rw [if_pos ha, fmod_add_self_fmod a m hm]
  · rw [if_neg ha, egcdLoop_align a m hm]

/-- Witness for C9 at the concrete input `a = -3`, `m = 7`. -/
theorem mod_inverse_normalized_input_witness :
    mod_inverse (-3) 7 = mod_inverse ((((-3 : Int).fmod 7) + 7).fmod 7) 7 :=
  mod_inverse_normalized_input (-3) 7 (by norm_num) (by decide)

/-- Claim C10: for every modulus `m > 1`, the out-of-contract call
`mod_inverse(0, m)` returns `0` without any error, and the returned value is
not a multiplicative inverse: `0·b ≡ 1 (mod m)` fails. -/
theorem mod_inverse_zero_input (m : Int) (hm : 1 < m) :
    mod_inverse 0 m = 0 ∧ ¬ ((0 : Int) * mod_inverse 0 m ≡ 1 [ZMOD m]) := by
  have h0 : mod_inverse 0 m = 0 := mod_inverse_zero m (by omega)
  refine ⟨h0, ?_⟩
  rw [h0]
  intro hcon
  have hd := Int.ModEq.dvd hcon
  norm_num at hd
  have hle := Int.le_of_dvd (by norm_num) hd
  omega

/-- Witness for C10 at the concrete modulus `m = 5`. -/
theorem mod_inverse_zero_input_witness :
    mod_inverse 0 5 = 0 ∧ ¬ ((0 : Int) * mod_inverse 0 5 ≡ 1 [ZMOD 5]) :=
  mod_inverse_zero_input 5 (by norm_num)

theorem mkPoint_some (x y : Int) :
    mkPoint (some x) (some y) =
      if (y * y).fmod (P : Int) = (x * x * x + B).fmod (P : Int) then
        .ok ⟨some x, some y⟩
      else
        .error (.notOnCurve (some x) (some y)) := by
  by_cases h : (y * y).fmod (P : Int) = (x * x * x + B).fmod (P : Int)
  · rw [if_pos h]
    simp [mkPoint, Point.is_infinity, Point.is_on_curve, h]
  · rw [if_neg h]
    have hb : ((y * y).fmod (P : Int) == (x * x * x + B).fmod (P : Int)) = false :=
      beq_eq_false_iff_ne.mpr h
    simp [mkPoint, Point.is_infinity, Point.is_on_curve, hb]

theorem onCurve_iff_fmod (x y : Int) :
    ((y * y).fmod (P : Int) = (x * x * x + B).fmod (P : Int)) ↔
      (y * y) ≡ (x * x * x + 7) [ZMOD (P : Int)] := by
  rw [Int.fmod_eq_emod _ (Int.natCast_nonneg P), Int.fmod_eq_emod _ (Int.natCast_nonneg P)]
  exact Iff.rfl

/-- Claim C5: for all integers `x, y`, constructing `Point(x, y)` fails with
the not-on-curve error carrying the offending coordinates exactly when
`y² ≢ x³ + 7 (mod p)`; when the congruence holds, construction succeeds and
`is_on_curve()` returns true on the constructed point. -/
theorem point_construction_validates (x y : Int) :
    (mkPoint (some x) (some y) = .error (.notOnCurve (some x) (some y)) ↔
      ¬ ((y * y) ≡ (x * x * x + 7) [ZMOD (P : Int)])) ∧
    ((y * y) ≡ (x * x * x + 7) [ZMOD (P : Int)] →
      mkPoint (some x) (some y) = .ok ⟨some x, some y⟩ ∧
        Point.is_on_curve ⟨some x, some y⟩ = some true) := by
  constructor
  · rw [mkPoint_some]
    constructor
    · intro h hc
      rw [if_pos ((onCurve_iff_fmod x y).mpr hc)] at h
      exact Except.noConfusion h
    · intro hc
      rw [if_neg (fun hf => hc ((onCurve_iff_fmod x y).mp hf))]
  · intro hc
    constructor
    · rw [mkPoint_some, if_pos ((onCurve_iff_fmod x y).mpr hc)]
    · have hf := (onCurve_iff_fmod x y).mpr hc
      simp [Point.is_on_curve, Point.is_infinity, hf]

/-- Witness for C5 at concrete inputs: the generator coordinates satisfy the
congruence and construct successfully. -/
theorem point_construction_validates_witness :
    mkPoint (some GX) (some GY) = .ok ⟨some GX, some GY⟩ ∧
      Point.is_on_curve ⟨some GX, some GY⟩ = some true :=
  (point_construction_validates GX GY).2 (by decide)

/-- Claim C4, amended: a successfully constructed non-infinity `Point`
satisfies the curve congruence `y² ≡ x³ + 7 (mod p)` and keeps the supplied
coordinates unchanged, but construction performs no range check, so the
coordinates need not lie in `[0, p)`. -/
theorem point_construction_congruence (x y : Int) (p' : Point)
    (h : mkPoint (some x) (some y) = .ok p') :
    p' = ⟨some x, some y⟩ ∧ (y * y) ≡ (x * x * x + 7) [ZMOD (P : Int)] := by
  rw [mkPoint_some] at h
  by_cases hc : (y * y).fmod (P : Int) = (x * x * x + B).fmod (P : Int)
  · rw [if_pos hc] at h
    injection h with h
    exact ⟨h.symm, (onCurve_iff_fmod x y).mp hc⟩
  · rw [if_neg hc] at h
    exact Except.noConfusion h

/-- Witness for C4's amended theorem at the generator point. -/
theorem point_construction_congruence_witness :
    (⟨some GX, some GY⟩ : Point) = ⟨some GX, some GY⟩ ∧
      (GY * GY) ≡ (GX * GX * GX + 7) [ZMOD (P : Int)] :=
  point_construction_congruence GX GY ⟨some GX, some GY⟩ (by decide)

/-- Counterexample to claim C4 as stated: the constructor accepts the
coordinates `(p + gx, gy)` — congruent to the generator modulo `p` but with
x-coordinate at least `p` — so constructed finite points are not always
reduced into `[0, p)`. -/
theorem point_construction_range_counterexample :
    mkPoint (some ((P : Int) + GX)) (some GY) =
      .ok ⟨some ((P : Int) + GX), some GY⟩ ∧
      ¬ ((P : Int) + GX < (P : Int)) := by
  constructor
  · decide
  · decide

theorem P_prime : Nat.Prime P := P_prime_nat

theorem int_cast_fmod (a : Int) :
    (((a.fmod (P : Int)) : Int) : ZMod P) = ((a : Int) : ZMod P) := by
  rw [Int.fmod_eq_emod _ (Int.natCast_nonneg P), ZMod.intCast_eq_intCast_iff']
  exact Int.emod_emod a (P : Int)

theorem int_cast_val (z : ZMod P) : (((z.val : Int)) : ZMod P) = z := by
  push_cast
  exact ZMod.natCast_rightInverse z

theorem int_cast_inj {a b : Int} (ha0 : 0 ≤ a) (ha1 : a < (P : Int)) (hb0 : 0 ≤ b)
    (hb1 : b < (P : Int)) (h : ((a : Int) : ZMod P) = ((b : Int) : ZMod P)) : a = b := by
  rw [ZMod.intCast_eq_intCast_iff'] at h
  rwa [Int.emod_eq_of_lt ha0 ha1, Int.emod_eq_of_lt hb0 hb1] at h

theorem val_int_cast_eq {a : Int} (ha0 : 0 ≤ a) (ha1 : a < (P : Int)) {z : ZMod P}
    (h : ((a : Int) : ZMod P) = z) : ((z.val : Int)) = a := by
  rw [← h]
  obtain ⟨n, rfl⟩ := Int.eq_ofNat_of_zero_le ha0
  have hn : n < P := by exact_mod_cast ha1
  rw [Int.cast_natCast, ZMod.val_cast_of_lt hn]

theorem val_int_bounds (z : ZMod P) : 0 ≤ ((z.val : Int)) ∧ ((z.val : Int)) < (P : Int) :=
  ⟨Int.natCast_nonneg _, by exact_mod_cast z.val_lt⟩

theorem val_int_inj {w z : ZMod P} (h : ((w.val : Int)) = ((z.val : Int))) : w = z := by
  have hn : w.val = z.val := by exact_mod_cast h
  exact ZMod.val_injective P hn

theorem mod_inverse_cast [Fact (Nat.Prime P)] {d : Int}
    (hd : ((d : Int) : ZMod P) ≠ 0) :
    ((mod_inverse d (P : Int) : Int) : ZMod P) = ((d : Int) : ZMod P)⁻¹ := by
  have hPpos : (0 : Int) < (P : Int) := by exact_mod_cast P_prime.pos
  have hndvd : ¬ ((P : Int) ∣ d) := fun hdd =>
    hd ((ZMod.intCast_zmod_eq_zero_iff_dvd d P).mpr hdd)
  have hgcd : Int.gcd d (P : Int) = 1 := by
    have h1 : ¬ (P ∣ d.natAbs) := fun hh => hndvd (Int.natCast_dvd.mpr hh)
    have h2 := (Nat.Prime.coprime_iff_not_dvd P_prime).mpr h1
    show Nat.gcd d.natAbs ((P : Int)).natAbs = 1
    rw [Int.natAbs_ofNat]
    exact Nat.coprime_comm.mp h2
  obtain ⟨hnn, hlt, hcong⟩ := mod_inverse_spec d (P : Int) hPpos hgcd
  have hc : ((d * mod_inverse d (P : Int) : Int) : ZMod P) = ((1 : Int) : ZMod P) := by
    rw [ZMod.intCast_eq_intCast_iff]
    exact_mod_cast hcong
  push_cast at hc
  exact (inv_eq_of_mul_eq_one_right hc).symm

theorem secp_equation_iff (x y : ZMod P) :
    secpCurve.Equation x y ↔ y * y = x * x * x + 7 := by
  rw [WeierstrassCurve.Affine.equation_iff]
  show y ^ 2 + 0 * x * y + 0 * y = x ^ 3 + 0 * x ^ 2 + 0 * x + 7 ↔ _
  constructor <;> intro h <;> [skip; skip] <;> linear_combination h

theorem secp_equation_iff_congruence (x y : Int) :
    secpCurve.Equation ((x : Int) : ZMod P) ((y : Int) : ZMod P) ↔
      (y * y) ≡ (x * x * x + 7) [ZMOD (P : Int)] := by
  rw [secp_equation_iff]
  constructor
  · intro h
    have hc : ((y * y : Int) : ZMod P) = ((x * x * x + 7 : Int) : ZMod P) := by
      push_cast
      exact h
    have := (ZMod.intCast_eq_intCast_iff _ _ _).mp hc
    exact_mod_cast this
  · intro h
    have hc : ((y * y : Int) : ZMod P) = ((x * x * x + 7 : Int) : ZMod P) := by
      rw [ZMod.intCast_eq_intCast_iff]
      exact_mod_cast h
    push_cast at hc
    exact hc

theorem secp_negY (x y : ZMod P) : secpCurve.negY x y = -y := by
  show -y - 0 * x - 0 = -y
  ring

theorem seven_le_P : 7 ≤ P := by decide

theorem three_dvd_P_sub_one : 3 * ((P - 1) / 3) = P - 1 := by decide

theorem equation_y_ne_zero [Fact (Nat.Prime P)] {x y : ZMod P}
    (h : secpCurve.Equation x y) : y ≠ 0 := by
  have heq : y * y = x * x * x + 7 := (secp_equation_iff x y).mp h
  intro hy0
  rw [hy0, mul_zero] at heq
  have hx3 : x ^ 3 = -7 := by linear_combination -heq
  have hx0 : x ≠ 0 := by
    intro h0
    rw [h0] at hx3
    have h7 : ((7 : Nat) : ZMod P) = 0 := by
      have hz : (0 : ZMod P) ^ 3 = 0 := by ring
      rw [hz] at hx3
      have : (7 : ZMod P) = 0 := by linear_combination hx3
      exact_mod_cast this
    have hdvd := (ZMod.natCast_zmod_eq_zero_iff_dvd 7 P).mp h7
    have hle := Nat.le_of_dvd (by norm_num) hdvd
    exact absurd hle (by decide)
  have hferm : x ^ (P - 1) = 1 := ZMod.pow_card_sub_one_eq_one hx0
  have hcube : (-7 : ZMod P) ^ ((P - 1) / 3) = 1 := by
    rw [← hx3, ← pow_mul, three_dvd_P_sub_one]
    exact hferm
  have hne : ((P - 7 : Nat) : ZMod P) ^ ((P - 1) / 3) ≠ 1 :=
    zmod_pow_ne_one P (P - 7) ((P - 1) / 3) (by decide) (by decide) (by decide)
  apply hne
  have hcast : ((P - 7 : Nat) : ZMod P) = -7 := by
    rw [Nat.cast_sub seven_le_P, ZMod.natCast_self]
    push_cast
    ring
  rw [hcast]
  exact hcube

theorem secpCurve_Δ : secpCurve.Δ = -21168 := by
  show -(0 ^ 2 + 4 * 0) ^ 2 *
        (0 ^ 2 * 7 + 4 * 0 * 7 - 0 * 0 * 0 + 0 * 0 ^ 2 - 0 ^ 2) -
      8 * (2 * 0 + 0 * 0) ^ 3 - 27 * (0 ^ 2 + 4 * 7) ^ 2 +
      9 * (0 ^ 2 + 4 * 0) * (2 * 0 + 0 * 0) * (0 ^ 2 + 4 * 7) = -21168
  norm_num

theorem secpCurve_Δ_ne_zero [Fact (Nat.Prime P)] : secpCurve.Δ ≠ 0 := by
  rw [secpCurve_Δ]
  intro h
  have h2 : ((21168 : Nat) : ZMod P) = 0 := by
    have h1 : (21168 : ZMod P) = 0 := neg_eq_zero.mp h
    exact_mod_cast h1
  have h3 := (ZMod.natCast_zmod_eq_zero_iff_dvd 21168 P).mp h2
  have h4 := Nat.le_of_dvd (by norm_num) h3
  exact absurd h4 (by decide)

theorem nonsingular_of_equation [Fact (Nat.Prime P)] {x y : ZMod P}
    (h : secpCurve.Equation x y) : secpCurve.Nonsingular x y :=
  WeierstrassCurve.Affine.nonsingular_of_Δ_ne_zero secpCurve h secpCurve_Δ_ne_zero

theorem fromW_zero : fromW 0 = ⟨none, none⟩ := rfl

theorem fromW_some {x y : ZMod P} (h : secpCurve.Nonsingular x y) :
    fromW (.some h) = ⟨some ((x.val : Int)), some ((y.val : Int))⟩ := rfl

theorem fromW_valid [Fact (Nat.Prime P)] (A : secpCurve.Point) :
    ValidSpec (fromW A) := by
  cases A with
  | zero => exact Or.inl rfl
  | some h =>
    rename_i x y
    right
    refine ⟨(x.val : Int), (y.val : Int), rfl, (val_int_bounds x).1, (val_int_bounds x).2,
      (val_int_bounds y).1, (val_int_bounds y).2, ?_⟩
    have heq := h.1
    rw [← int_cast_val x, ← int_cast_val y] at heq
    exact (secp_equation_iff_congruence _ _).mp heq

theorem mkPoint_valid {p : Point} (h : ValidSpec p) : mkPoint p.x p.y = .ok p := by
  rcases h with h | ⟨x, y, hp, hx0, hx1, hy0, hy1, hc⟩
  · subst h
    rfl
  · subst hp
    rw [mkPoint_some, if_pos ((onCurve_iff_fmod x y).mpr hc)]

theorem valid_repr [Fact (Nat.Prime P)] {p : Point} (h : ValidSpec p) :
    ∃ A : secpCurve.Point, fromW A = p := by
  rcases h with h | ⟨x, y, hp, hx0, hx1, hy0, hy1, hc⟩
  · exact ⟨0, h.symm⟩
  · subst hp
    refine ⟨.some (nonsingular_of_equation ((secp_equation_iff_congruence x y).mpr hc)), ?_⟩
    rw [fromW_some]
    have hx := val_int_cast_eq hx0 hx1 rfl
    have hy := val_int_cast_eq hy0 hy1 rfl
    rw [hx, hy]

theorem point_add_some (x1 y1 x2 y2 : Int) :
    point_add ⟨some x1, some y1⟩ ⟨some x2, some y2⟩ =
      if x1 = x2 ∧ y1 ≠ y2 then .ok ⟨none, none⟩
      else
        addFinish x1 y1 x2
          (if x1 = x2 then
            (3 * x1 * x1 * mod_inverse (2 * y1) (P : Int)).fmod (P : Int)
          else
            ((y2 - y1) * mod_inverse (x2 - x1) (P : Int)).fmod (P : Int)) := rfl

theorem addFinish_def (x1 y1 x2 s : Int) :
    addFinish x1 y1 x2 s =
      mkPoint (some ((s * s - x1 - x2).fmod (P : Int)))
        (some ((s * (x1 - (s * s - x1 - x2).fmod (P : Int)) - y1).fmod (P : Int))) := rfl

theorem secp_addX (a b L : ZMod P) :
    secpCurve.addX a b L = L * L - a - b := by
  show L ^ 2 + 0 * L - 0 - a - b = L * L - a - b
  ring

theorem secp_addY (a b c L : ZMod P) :
    secpCurve.addY a b c L = L * (a - secpCurve.addX a b L) - c := by
  show -(L * (secpCurve.addX a b L - a) + c) - 0 * secpCurve.addX a b L - 0 = _
  ring

theorem pNat_pos : (0 : Int) < (P : Int) := by
  have : (0 : Nat) < P := by decide
  exact_mod_cast this

theorem addFinish_ok [Fact (Nat.Prime P)] {x1 y1 x2 y2 s : Int}
    (h₁ : secpCurve.Nonsingular ((x1 : Int) : ZMod P) ((y1 : Int) : ZMod P))
    (h₂ : secpCurve.Nonsingular ((x2 : Int) : ZMod P) ((y2 : Int) : ZMod P))
    (hxy : ((x1 : Int) : ZMod P) = ((x2 : Int) : ZMod P) →
      ((y1 : Int) : ZMod P) ≠ secpCurve.negY ((x2 : Int) : ZMod P) ((y2 : Int) : ZMod P))
    (hs : ((s : Int) : ZMod P) =
      secpCurve.slope ((x1 : Int) : ZMod P) ((x2 : Int) : ZMod P)
        ((y1 : Int) : ZMod P) ((y2 : Int) : ZMod P)) :
    addFinish x1 y1 x2 s =
      .ok (fromW (WeierstrassCurve.Affine.Point.some h₁ +
        WeierstrassCurve.Affine.Point.some h₂)) := by
  have hadd : (WeierstrassCurve.Affine.Point.some h₁ +
      WeierstrassCurve.Affine.Point.some h₂ : secpCurve.Point) =
      WeierstrassCurve.Affine.Point.some
        (WeierstrassCurve.Affine.nonsingular_add h₁ h₂ hxy) :=
    WeierstrassCurve.Affine.Point.add_of_imp hxy
  rw [hadd, fromW_some]
  have hx3cast : (((s * s - x1 - x2).fmod (P : Int) : Int) : ZMod P) =
      secpCurve.addX ((x1 : Int) : ZMod P) ((x2 : Int) : ZMod P)
        (secpCurve.slope ((x1 : Int) : ZMod P) ((x2 : Int) : ZMod P)
          ((y1 : Int) : ZMod P) ((y2 : Int) : ZMod P)) := by
    rw [int_cast_fmod, secp_addX]
    push_cast
    rw [hs]
  have hy3cast : (((s * ((x1 : Int) - (s * s - x1 - x2).fmod (P : Int)) - y1).fmod (P : Int) :
        Int) : ZMod P) =
      secpCurve.addY ((x1 : Int) : ZMod P) ((x2 : Int) : ZMod P) ((y1 : Int) : ZMod P)
        (secpCurve.slope ((x1 : Int) : ZMod P) ((x2 : Int) : ZMod P)
          ((y1 : Int) : ZMod P) ((y2 : Int) : ZMod P)) := by
    rw [int_cast_fmod, secp_addY]
    push_cast
    rw [hx3cast, hs]
  have hx3b : 0 ≤ (s * s - x1 - x2).fmod (P : Int) ∧
      (s * s - x1 - x2).fmod (P : Int) < (P : Int) :=
    ⟨Int.fmod_nonneg' _ pNat_pos, Int.fmod_lt_of_pos _ pNat_pos⟩
  have hy3b : 0 ≤ (s * ((x1 : Int) - (s * s - x1 - x2).fmod (P : Int)) - y1).fmod (P : Int) ∧
      (s * ((x1 : Int) - (s * s - x1 - x2).fmod (P : Int)) - y1).fmod (P : Int) < (P : Int) :=
    ⟨Int.fmod_nonneg' _ pNat_pos, Int.fmod_lt_of_pos _ pNat_pos⟩
  have hvx := val_int_cast_eq hx3b.1 hx3b.2 hx3cast
  have hvy := val_int_cast_eq hy3b.1 hy3b.2 hy3cast
  have heq := (WeierstrassCurve.Affine.nonsingular_add h₁ h₂ hxy).1
  rw [← hx3cast, ← hy3cast] at heq
  have hcong := (secp_equation_iff_congruence _ _).mp heq
  rw [addFinish_def, mkPoint_some, if_pos ((onCurve_iff_fmod _ _).mpr hcong), hvx, hvy]

theorem two_ne_zero_F [Fact (Nat.Prime P)] : (2 : ZMod P) ≠ 0 := by
  intro h
  have h2 : ((2 : Nat) : ZMod P) = 0 := by exact_mod_cast h
  have h3 := (ZMod.natCast_zmod_eq_zero_iff_dvd 2 P).mp h2
  have h4 := Nat.le_of_dvd (by norm_num) h3
  exact absurd h4 (by decide)

theorem addFinish_ok2 [Fact (Nat.Prime P)] {a1 b1 a2 s : Int} {x1 y1 x2 y2 : ZMod P}
    (hc1 : ((a1 : Int) : ZMod P) = x1) (hd1 : ((b1 : Int) : ZMod P) = y1)
    (hc2 : ((a2 : Int) : ZMod P) = x2)
    (h₁ : secpCurve.Nonsingular x1 y1) (h₂ : secpCurve.Nonsingular x2 y2)
    (hxy : x1 = x2 → y1 ≠ secpCurve.negY x2 y2)
    (hs : ((s : Int) : ZMod P) = secpCurve.slope x1 x2 y1 y2) :
    addFinish a1 b1 a2 s =
      .ok (fromW (WeierstrassCurve.Affine.Point.some h₁ +
        WeierstrassCurve.Affine.Point.some h₂)) := by
  subst hc1
  subst hd1
  subst hc2
  obtain ⟨b2, hb2⟩ : ∃ b2 : Int, ((b2 : Int) : ZMod P) = y2 :=
    ⟨((y2.val : Int)), int_cast_val y2⟩
  subst hb2
  exact addFinish_ok h₁ h₂ hxy hs

theorem point_add_fromW [Fact (Nat.Prime P)] (Aw Bw : secpCurve.Point) :
    point_add (fromW Aw) (fromW Bw) = .ok (fromW (Aw + Bw)) := by
  cases Aw with
  | zero =>
    rw [WeierstrassCurve.Affine.Point.zero_def, zero_add]
    calc point_add (fromW (0 : secpCurve.Point)) (fromW Bw)
        = mkPoint (fromW Bw).x (fromW Bw).y := by cases Bw <;> rfl
      _ = .ok (fromW Bw) := mkPoint_valid (fromW_valid Bw)
  | some h₁ =>
    rename_i x1 y1
    cases Bw with
    | zero =>
      rw [WeierstrassCurve.Affine.Point.zero_def, add_zero]
      calc point_add (fromW (WeierstrassCurve.Affine.Point.some h₁))
            (fromW (0 : secpCurve.Point))
          = mkPoint (fromW (WeierstrassCurve.Affine.Point.some h₁)).x
            (fromW (WeierstrassCurve.Affine.Point.some h₁)).y := rfl
        _ = .ok (fromW (WeierstrassCurve.Affine.Point.some h₁)) :=
            mkPoint_valid (fromW_valid _)
    | some h₂ =>
      rename_i x2 y2
      rw [fromW_some, fromW_some, point_add_some]
      have hcx1 : (((x1.val : Int)) : ZMod P) = x1 := int_cast_val x1
      have hcy1 : (((y1.val : Int)) : ZMod P) = y1 := int_cast_val y1
      have hcx2 : (((x2.val : Int)) : ZMod P) = x2 := int_cast_val x2
      have hcy2 : (((y2.val : Int)) : ZMod P) = y2 := int_cast_val y2
      have ncx1 : ((x1.val : Nat) : ZMod P) = x1 := ZMod.natCast_rightInverse x1
      have ncy1 : ((y1.val : Nat) : ZMod P) = y1 := ZMod.natCast_rightInverse y1
      have ncx2 : ((x2.val : Nat) : ZMod P) = x2 := ZMod.natCast_rightInverse x2
      have ncy2 : ((y2.val : Nat) : ZMod P) = y2 := ZMod.natCast_rightInverse y2
      have hy1ne : y1 ≠ 0 := equation_y_ne_zero h₁.1
      by_cases hx : ((x1.val : Int)) = ((x2.val : Int))
      · have hxF : x1 = x2 := val_int_inj hx
        by_cases hy : ((y1.val : Int)) = ((y2.val : Int))
        · -- doubling branch: both coordinates coincide
          have hyF : y1 = y2 := val_int_inj hy
          rw [if_neg (fun hcc => hcc.2 hy), if_pos hx]
          have hyneg : y1 ≠ secpCurve.negY x2 y2 := by
            rw [secp_negY, ← hyF]
            intro hcon
            apply hy1ne
            have h2y : (2 : ZMod P) * y1 = 0 := by linear_combination hcon
            rcases mul_eq_zero.mp h2y with h | h
            · exact absurd h two_ne_zero_F
            · exact h
          apply addFinish_ok2 hcx1 hcy1 hcx2 h₁ h₂ (fun _ => hyneg)
          rw [WeierstrassCurve.Affine.slope_of_Y_ne hxF hyneg]
          rw [int_cast_fmod]
          have hden : ((2 * (y1.val : Int) : Int) : ZMod P) = 2 * y1 := by
            push_cast
            rw [ncy1]
          have hdne : ((2 * (y1.val : Int) : Int) : ZMod P) ≠ 0 := by
            rw [hden]
            exact mul_ne_zero two_ne_zero_F hy1ne
          push_cast
          rw [mod_inverse_cast hdne, hden, ncx1, secp_negY]
          show 3 * x1 * x1 * (2 * y1)⁻¹ =
            (3 * x1 ^ 2 + 2 * 0 * x1 + 0 - 0 * y1) / (y1 - -y1)
          rw [div_eq_mul_inv]
          have hd2 : y1 - -y1 = 2 * y1 := by ring
          rw [hd2]
          ring_nf
        · -- mutual negation branch: same x, different y, result is infinity
          have hyne : y1 ≠ y2 := fun hcc => hy (by rw [hcc])
          rw [if_pos ⟨hx, fun hcc => hy hcc⟩]
          have he1 : y1 * y1 = x1 * x1 * x1 + 7 := (secp_equation_iff _ _).mp h₁.1
          have he2 : y2 * y2 = x2 * x2 * x2 + 7 := (secp_equation_iff _ _).mp h₂.1
          have hsq : (y1 - y2) * (y1 + y2) = 0 := by
            rw [hxF] at he1
            linear_combination he1 - he2
          have hyeq : y1 = secpCurve.negY x2 y2 := by
            rw [secp_negY]
            rcases mul_eq_zero.mp hsq with h | h
            · exact absurd (by linear_combination h) hyne
            · linear_combination h
          rw [WeierstrassCurve.Affine.Point.add_of_Y_eq hxF hyeq]
          rfl
      · -- chord branch: distinct x-coordinates
        have hxF : x1 ≠ x2 := fun hcc => hx (by rw [hcc])
        rw [if_neg (fun hcc => hx hcc.1), if_neg hx]
        apply addFinish_ok2 hcx1 hcy1 hcx2 h₁ h₂ (fun hcc => absurd hcc hxF)
        rw [WeierstrassCurve.Affine.slope_of_X_ne hxF]
        rw [int_cast_fmod]
        have hden : (((x2.val : Int) - (x1.val : Int) : Int) : ZMod P) = x2 - x1 := by
          push_cast
          rw [ncx1, ncx2]
        have hdne : (((x2.val : Int) - (x1.val : Int) : Int) : ZMod P) ≠ 0 := by
          rw [hden]
          exact sub_ne_zero.mpr (Ne.symm hxF)
        push_cast
        rw [mod_inverse_cast hdne, hden, ncy1, ncy2]
        rw [div_eq_mul_inv]
        have hneg : (x1 - x2)⁻¹ = -((x2 - x1)⁻¹) := by
          rw [show x1 - x2 = -(x2 - x1) by ring, inv_neg]
        rw [hneg]
        ring

theorem is_on_curve_of_valid {p : Point} (h : ValidSpec p) :
    p.is_on_curve = some true := by
  rcases h with h | ⟨x, y, hp, hx0, hx1, hy0, hy1, hc⟩
  · subst h
    rfl
  · subst hp
    have hf := (onCurve_iff_fmod x y).mpr hc
    simp [Point.is_on_curve, Point.is_infinity, hf]

theorem validG : ValidSpec ⟨some GX, some GY⟩ :=
  Or.inr ⟨GX, GY, rfl, by decide, by decide, by decide, by decide, by decide⟩

/-- Claim C1: for every pair of valid points (the point at infinity or an
on-curve finite point with field-element coordinates), `point_add` returns a
point without raising any error, and the returned point is on the curve: the
group operation is total and closed. -/
theorem point_add_total_closed (p1 p2 : Point) (h1 : ValidSpec p1)
    (h2 : ValidSpec p2) :
    ∃ p3 : Point, point_add p1 p2 = .ok p3 ∧ p3.is_on_curve = some true ∧
      ValidSpec p3 := by
  haveI : Fact (Nat.Prime P) := ⟨P_prime⟩
  obtain ⟨Aw, rfl⟩ := valid_repr h1
  obtain ⟨Bw, rfl⟩ := valid_repr h2
  exact ⟨fromW (Aw + Bw), point_add_fromW Aw Bw,
    is_on_curve_of_valid (fromW_valid _), fromW_valid _⟩

/-- Witness for C1: adding the generator to the point at infinity. -/
theorem point_add_total_closed_witness :
    ∃ p3 : Point, point_add ⟨some GX, some GY⟩ ⟨none, none⟩ = .ok p3 ∧
      p3.is_on_curve = some true ∧ ValidSpec p3 :=
  point_add_total_closed ⟨some GX, some GY⟩ ⟨none, none⟩ validG (Or.inl rfl)

/-- Claim C7: point addition is commutative on valid points. -/
theorem point_add_comm (p1 p2 : Point) (h1 : ValidSpec p1) (h2 : ValidSpec p2) :
    point_add p1 p2 = point_add p2 p1 := by
  haveI : Fact (Nat.Prime P) := ⟨P_prime⟩
  obtain ⟨Aw, rfl⟩ := valid_repr h1
  obtain ⟨Bw, rfl⟩ := valid_repr h2
  rw [point_add_fromW, point_add_fromW, add_comm]

/-- Witness for C7: the generator and the point at infinity commute. -/
theorem point_add_comm_witness :
    point_add ⟨some GX, some GY⟩ ⟨none, none⟩ =
      point_add ⟨none, none⟩ ⟨some GX, some GY⟩ :=
  point_add_comm ⟨some GX, some GY⟩ ⟨none, none⟩ validG (Or.inl rfl)

/-- Claim C6: point addition is associative on valid points: whenever the
intermediate sums succeed, adding `(p1 + p2) + p3` equals `p1 + (p2 + p3)`. -/
theorem point_add_assoc (p1 p2 p3 q12 q23 : Point)
    (h1 : ValidSpec p1) (h2 : ValidSpec p2) (h3 : ValidSpec p3)
    (h12 : point_add p1 p2 = .ok q12) (h23 : point_add p2 p3 = .ok q23) :
    point_add q12 p3 = point_add p1 q23 := by
  haveI : Fact (Nat.Prime P) := ⟨P_prime⟩
  obtain ⟨Aw, rfl⟩ := valid_repr h1
  obtain ⟨Bw, rfl⟩ := valid_repr h2
  obtain ⟨Cw, rfl⟩ := valid_repr h3
  rw [point_add_fromW] at h12 h23
  injection h12 with h12
  injection h23 with h23
  subst h12
  subst h23
  rw [point_add_fromW, point_add_fromW, add_assoc]

/-- Witness for C6 with the generator and two copies of infinity. -/
theorem point_add_assoc_witness :
    point_add ⟨some GX, some GY⟩ ⟨none, none⟩ =
      point_add ⟨some GX, some GY⟩ ⟨none, none⟩ :=
  point_add_assoc ⟨some GX, some GY⟩ ⟨none, none⟩ ⟨none, none⟩
    ⟨some GX, some GY⟩ ⟨none, none⟩ validG (Or.inl rfl) (Or.inl rfl)
    (mkPoint_valid validG) rfl

/-- Claim C8: for every valid finite point `(x, y)`, adding its negation
`(x, (p − y) mod p)` — which itself constructs successfully — yields the
point at infinity. -/
theorem point_add_negation (x y : Int) (hx0 : 0 ≤ x) (hx1 : x < (P : Int))
    (hy0 : 0 ≤ y) (hy1 : y < (P : Int))
    (hc : (y * y) ≡ (x * x * x + 7) [ZMOD (P : Int)]) :
    mkPoint (some x) (some (((P : Int) - y).fmod (P : Int))) =
      .ok ⟨some x, some (((P : Int) - y).fmod (P : Int))⟩ ∧
    point_add ⟨some x, some y⟩ ⟨some x, some (((P : Int) - y).fmod (P : Int))⟩ =
      .ok ⟨none, none⟩ := by
  haveI : Fact (Nat.Prime P) := ⟨P_prime⟩
  have hyF : ((y : Int) : ZMod P) ≠ 0 :=
    equation_y_ne_zero ((secp_equation_iff_congruence x y).mpr hc)
  have hyne : y ≠ 0 := by
    intro h0
    apply hyF
    rw [h0]
    exact Int.cast_zero
  have hval : ((P : Int) - y).fmod (P : Int) = (P : Int) - y :=
    Int.fmod_eq_of_lt (by omega) (by omega)
  have hnegc : (((P : Int) - y) * ((P : Int) - y)) ≡ (x * x * x + 7)
      [ZMOD (P : Int)] := by
    have h1 : (((P : Int) - y) * ((P : Int) - y)) ≡ y * y [ZMOD (P : Int)] := by
      rw [Int.modEq_iff_dvd]
      exact ⟨2 * y - (P : Int), by ring⟩
    exact h1.trans hc
  constructor
  · rw [hval, mkPoint_some, if_pos ((onCurve_iff_fmod _ _).mpr hnegc)]
  · rw [hval, point_add_some]
    have hP2 : (P : Int) % 2 = 1 := by decide
    rw [if_pos ⟨rfl, by omega⟩]

/-- Witness for C8 at the generator point. -/
theorem point_add_negation_witness :
    mkPoint (some GX) (some (((P : Int) - GY).fmod (P : Int))) =
      .ok ⟨some GX, some (((P : Int) - GY).fmod (P : Int))⟩ ∧
    point_add ⟨some GX, some GY⟩
        ⟨some GX, some (((P : Int) - GY).fmod (P : Int))⟩ =
      .ok ⟨none, none⟩ :=
  point_add_negation GX GY (by decide) (by decide) (by decide) (by decide)
    (by decide)

theorem multLoop_zero (r a : Point) : multLoop 0 r a = .ok r := by
  rw [multLoop]
  simp

theorem multLoop_step (k : Nat) (r a : Point) (hk : k ≠ 0) :
    multLoop k r a =
      (if k &&& 1 = 1 then point_add r a else .ok r).bind (fun result' =>
        (point_add a a).bind (fun addend' =>
          multLoop (k >>> 1) result' addend')) := by
  conv_lhs => rw [multLoop]
  rw [if_neg hk]
  by_cases hb : k &&& 1 = 1
  · simp only [if_pos hb]
    rfl
  · simp only [if_neg hb]
    rfl

theorem multLoop_fromW [Fact (Nat.Prime P)] (k : Nat) :
    ∀ R Aw : secpCurve.Point,
      multLoop k (fromW R) (fromW Aw) = .ok (fromW (R + k • Aw)) := by
  induction k using Nat.strong_induction_on with
  | _ k ih =>
    intro R Aw
    by_cases hk : k = 0
    · subst hk
      rw [multLoop_zero, zero_nsmul, add_zero]
    · rw [multLoop_step k _ _ hk]
      have hres : (if k &&& 1 = 1 then point_add (fromW R) (fromW Aw)
          else .ok (fromW R)) = .ok (fromW (R + (k &&& 1) • Aw)) := by
        by_cases hb : k &&& 1 = 1
        · rw [if_pos hb, hb, point_add_fromW, one_nsmul]
        · have hb0 : k &&& 1 = 0 := by
            have hm := Nat.and_one_is_mod k
            omega
          rw [if_neg hb, hb0, zero_nsmul, add_zero]
      rw [hres]
      show (point_add (fromW Aw) (fromW Aw)).bind _ = _
      rw [point_add_fromW]
      show multLoop (k >>> 1) (fromW (R + (k &&& 1) • Aw)) (fromW (Aw + Aw)) = _
      have hlt : k >>> 1 < k := by
        rw [Nat.shiftRight_one]
        omega
      rw [ih (k >>> 1) hlt (R + (k &&& 1) • Aw) (Aw + Aw)]
      have halg : R + (k &&& 1) • Aw + (k >>> 1) • (Aw + Aw) = R + k • Aw := by
        have h2 : Aw + Aw = 2 • Aw := (two_nsmul Aw).symm
        rw [h2, ← mul_nsmul, add_assoc, ← add_nsmul]
        have harith : (k &&& 1) + 2 * (k >>> 1) = k := by
          have hm := Nat.and_one_is_mod k
          rw [Nat.shiftRight_one]
          omega
        rw [harith]
      rw [halg]

theorem naive_fromW [Fact (Nat.Prime P)] (k : Nat) (Aw : secpCurve.Point) :
    naiveMultiply k (fromW Aw) = .ok (fromW (k • Aw)) := by
  induction k with
  | zero =>
    rw [naiveMultiply, zero_nsmul]
    rfl
  | succ n ih =>
    rw [naiveMultiply, ih]
    show point_add (fromW (n • Aw)) (fromW Aw) = _
    rw [point_add_fromW, succ_nsmul]

/-- Claim C2: for every scalar `k ≥ 0` and valid point `p`, the
double-and-add loop of `point_multiply` computes the same result as the
reference model `naiveMultiply`, the `k`-fold sum of `p` under `point_add`
starting from infinity; in particular `point_multiply 0 p` is the point at
infinity and `point_multiply 1 p` is `p`. -/
theorem point_multiply_refines (k : Nat) (p : Point) (h : ValidSpec p) :
    point_multiply k p = naiveMultiply k p ∧
      point_multiply 0 p = .ok ⟨none, none⟩ ∧
      point_multiply 1 p = .ok p := by
  haveI : Fact (Nat.Prime P) := ⟨P_prime⟩
  obtain ⟨Aw, rfl⟩ := valid_repr h
  have h1 : point_multiply 1 (fromW Aw) = .ok (fromW Aw) :=
    mkPoint_valid (fromW_valid Aw)
  refine ⟨?_, rfl, h1⟩
  by_cases hk0 : k = 0
  · subst hk0
    rw [naiveMultiply]
    rfl
  by_cases hk1 : k = 1
  · subst hk1
    rw [h1, naive_fromW, one_nsmul]
  · have hunfold : point_multiply k (fromW Aw) =
        (mkPoint (fromW Aw).x (fromW Aw).y).bind
          (fun addend => multLoop k ⟨none, none⟩ addend) := by
      rw [point_multiply, if_neg hk0, if_neg hk1]
      rfl
    rw [hunfold, mkPoint_valid (fromW_valid Aw)]
    show multLoop k (fromW 0) (fromW Aw) = _
    rw [multLoop_fromW, zero_add, naive_fromW]

/-- Witness for C2 at `k = 5` and the generator point. -/
theorem point_multiply_refines_witness :
    point_multiply 5 ⟨some GX, some GY⟩ = naiveMultiply 5 ⟨some GX, some GY⟩ ∧
      point_multiply 0 ⟨some GX, some GY⟩ = .ok ⟨none, none⟩ ∧
      point_multiply 1 ⟨some GX, some GY⟩ = .ok ⟨some GX, some GY⟩ :=
  point_multiply_refines 5 ⟨some GX, some GY⟩ validG
